import Mathlib

set_option linter.unusedSectionVars false

/-!
Verification of the frequency / phase-angle / RoCoF derivation pipeline of
the Blackout_ESPT repository (src/main.py and src/BO_2025/main.py).

The pipeline is embedded shallowly:
* a pandas `Series` of floats with missing entries (NaN) becomes
  `List (Option α)`; a missing cell is `none`;
* timestamps (after `pd.to_datetime`) become `List α`, measured in seconds,
  so that `.dt.total_seconds()` of a difference is plain subtraction;
* the DataFrame `df` becomes a `DataFrame` structure: the `Timestamp`
  column plus an ordered association list of named columns, mirroring
  pandas column order (assignment to a fresh key appends on the right);
* NaN-propagation of float arithmetic is modelled by `Option`-propagating
  operations (`optAdd`, `optSub`, `divOpt`); float division is modelled by
  total field division;
* Python exceptions raised by the pipeline are modelled with `Except`.

All definitions are polymorphic over a `Field α` so that they are
executable; the float constant `np.pi` becomes an explicit argument `piv`,
and every statement about the program instantiates `α := ℝ` and
`piv := Real.pi`.
-/

variable {α : Type} [Field α]

/-- NaN-propagating addition: `NaN + x = NaN` (pandas/numpy semantics). -/
def optAdd : Option α → Option α → Option α
  | some a, some b => some (a + b)
  | _, _ => none

/-- NaN-propagating subtraction. -/
def optSub : Option α → Option α → Option α
  | some a, some b => some (a - b)
  | _, _ => none

/-- NaN-propagating division (float `inf` on a zero divisor is modelled by
total field division, where `x / 0 = 0`). -/
def divOpt : Option α → Option α → Option α
  | some a, some b => some (a / b)
  | _, _ => none

/-- The values inserted by positional linear interpolation into a gap of
`g` missing cells lying between a known value `a` and a known value `b`:
`a + (b - a)·(j+1)/(g+1)` for `j = 0, …, g-1`. -/
def gapFill (a b : α) (g : ℕ) : List α :=
  (List.range g).map (fun j : ℕ => a + (b - a) * ((j : α) + 1) / ((g : α) + 1))

/-- The work done after the first known value `a` by `Series.interpolate()`
(linear, positional): `pending` counts missing cells seen since the last
known value.  Interior gaps are filled linearly; a trailing gap is filled
by holding the last known value (pandas fills forward past the last valid
observation). -/
def interpRun (a : α) (pending : ℕ) : List (Option α) → List α
  | [] => List.replicate pending a
  | none :: rest => interpRun a (pending + 1) rest
  | some b :: rest => gapFill a b pending ++ b :: interpRun b 0 rest

/-- `Series.interpolate()` with the default linear/forward settings:
missing cells before the first known value are left missing; from the
first known value onward every cell is known. -/
def interpolate : List (Option α) → List (Option α)
  | [] => []
  | none :: rest => none :: interpolate rest
  | some a :: rest => some a :: (interpRun a 0 rest).map some

/-- `Series.bfill()`: each missing cell takes the next known value below
it; trailing missing cells stay missing. -/
def bfill : List (Option α) → List (Option α)
  | [] => []
  | some a :: rest => some a :: bfill rest
  | none :: rest =>
    let r := bfill rest
    (match r.head? with
     | some (some b) => some b
     | _ => none) :: r

/-- `Series.ffill()` carrying the last known value `c` forward. -/
def ffillFrom (c : Option α) : List (Option α) → List (Option α)
  | [] => []
  | some a :: rest => some a :: ffillFrom (some a) rest
  | none :: rest => c :: ffillFrom c rest

/-- `Series.ffill()`: each missing cell takes the last known value above
it; leading missing cells stay missing. -/
def ffill : List (Option α) → List (Option α) := ffillFrom none

/-- The gap-filling step used throughout the source:
`series.interpolate().bfill().ffill()`. -/
def fillSeries (xs : List (Option α)) : List (Option α) :=
  ffill (bfill (interpolate xs))

/-- `np.diff`: adjacent differences, one element shorter than the input. -/
def np_diff : List α → List α
  | [] => []
  | [_] => []
  | a :: b :: rest => (b - a) :: np_diff (b :: rest)

/-- NaN-propagating running sum (`np.cumsum`): once an entry is missing,
every later partial sum is missing. -/
def cumsumO (acc : Option α) : List (Option α) → List (Option α)
  | [] => []
  | x :: rest =>
    let s := optAdd acc x
    s :: cumsumO s rest

/-- `Series.diff()` after the first element: entry `i` is `x_i - x_{i-1}`
with NaN propagation, `prev` being the element before the head. -/
def diffPairs (prev : Option α) : List (Option α) → List (Option α)
  | [] => []
  | x :: rest => optSub x prev :: diffPairs x rest

/-- `Series.diff()`: first entry missing, then adjacent differences. -/
def seriesDiff : List (Option α) → List (Option α)
  | [] => []
  | x :: rest => none :: diffPairs x rest

/-- `compute_phase_angle` (src/main.py lines 35-45): gap-fill the raw
frequency column, take elapsed seconds since the first timestamp, form
`dt = np.diff(time_sec, prepend=time_sec[0])`, the deviation from the
nominal frequency, the incremental phase `2π·Δf·dt`, and its cumulative
sum.  `piv` stands for the float constant `np.pi`.  The source indexes
`timestamps.iloc[0]`, so an empty frame is outside its domain; the model
returns `[]` there. -/
def compute_phase_angle (piv : α) (timestamps : List α) (rawFreq : List (Option α))
    (nominal_freq : α := 50) : List (Option α) :=
  let freqs := fillSeries rawFreq
  match timestamps with
  | [] => []
  | t0 :: _ =>
    let time_sec := timestamps.map (fun t => t - t0)
    let dt := np_diff ((t0 - t0) :: time_sec)
    let delta_f := freqs.map (Option.map (fun f => f - nominal_freq))
    let delta_theta :=
      List.zipWith (fun df d => Option.map (fun x => 2 * piv * x * d) df) delta_f dt
    cumsumO (some 0) delta_theta

/-- The RoCoF column (src/main.py lines 57-60):
`freq_series.diff() / df['Timestamp'].diff().dt.total_seconds()` where
`freq_series` is the gap-filled frequency column. -/
def rocofSeries (timestamps : List α) (rawFreq : List (Option α)) : List (Option α) :=
  List.zipWith divOpt (seriesDiff (fillSeries rawFreq))
    (seriesDiff (timestamps.map some))

/-- Element-wise difference of two columns (`df[col] - df[reference]`). -/
def subCols (xs ys : List (Option α)) : List (Option α) :=
  List.zipWith optSub xs ys

/-! ### The DataFrame-level pipeline (module top level of src/main.py) -/

/-- Whether a column header matches the frequency naming pattern:
`'Frequency' in col` (src/main.py line 48). -/
def containsFrequency (s : String) : Bool :=
  decide ("Frequency".toList <:+: s.toList)

/-- Helper for Python `str.replace('Frequency', rep)`: scans left to
right; a positive `skip` means that many characters of a matched
occurrence remain to be consumed. -/
def replAux (rep : List Char) : ℕ → List Char → List Char
  | _, [] => []
  | k + 1, _ :: rest => replAux rep k rest
  | 0, c :: rest =>
    if ("Frequency".toList).isPrefixOf (c :: rest) then
      rep ++ replAux rep 8 rest
    else
      c :: replAux rep 0 rest

/-- Python `col.replace('Frequency', rep)`: every non-overlapping
occurrence, found left to right, is replaced. -/
def replaceFrequency (rep : String) (col : String) : String :=
  ⟨replAux rep.toList 0 col.toList⟩

/-- `col.replace('Frequency', 'Phase')` (src/main.py line 53). -/
def phaseNameOf (col : String) : String := replaceFrequency ("Phase") col

/-- `col.replace('Frequency', 'RoCoF')` (src/main.py line 58). -/
def rocofNameOf (col : String) : String := replaceFrequency ("RoCoF") col

/-- The in-memory frame: the parsed `Timestamp` column plus the named
value columns in pandas order. -/
structure DataFrame (α : Type) where
  timestamps : List α
  cols : List (String × List (Option α))
deriving DecidableEq

/-- `df[k]`: the first column named `k`, if any. -/
def getCol : List (String × List (Option α)) → String → Option (List (Option α))
  | [], _ => none
  | (k', v') :: rest, k => if k' = k then some v' else getCol rest k

/-- `df[k] = v`: overwrite the column named `k` in place, or append a new
column on the right (pandas assignment semantics). -/
def setCol : List (String × List (Option α)) → String → List (Option α) →
    List (String × List (Option α))
  | [], k, v => [(k, v)]
  | (k', v') :: rest, k, v =>
    if k' = k then (k, v) :: rest else (k', v') :: setCol rest k v

/-- Failures of the module-level pipeline, named after the spec taxonomy:
`loadError` models `pd.read_csv` raising on a missing or unparsable file,
`configError` models the `KeyError` raised by `df[reference_station]`
when the reference column does not exist. -/
inductive PipeError
  | loadError
  | configError
deriving DecidableEq

/-- The reference station column name (src/main.py line 64). -/
def reference_station : String := "DE_Ostrhauderfehn:Phase"

/-- The per-frequency-column loop (src/main.py lines 52-60): for each
frequency column, in discovery order, write its Phase column and then its
RoCoF column; each step reads the current state of the frame. -/
def deriveLoop (piv : α) : DataFrame α → List String → DataFrame α
  | df, [] => df
  | df, col :: rest =>
    let phaseCol := phaseNameOf col
    let df1 : DataFrame α :=
      ⟨df.timestamps,
        setCol df.cols phaseCol
          (compute_phase_angle piv df.timestamps ((getCol df.cols col).getD []))⟩
    let rocofCol := rocofNameOf col
    let df2 : DataFrame α :=
      ⟨df1.timestamps,
        setCol df1.cols rocofCol
          (rocofSeries df1.timestamps ((getCol df1.cols col).getD []))⟩
    deriveLoop piv df2 rest

/-- The reference-normalization loop (src/main.py lines 63-66): for each
phase column, write `df[col + '_rel'] = df[col] - df[reference_station]`;
looking up a missing reference column raises. -/
def relLoop : DataFrame α → List String → Except PipeError (DataFrame α)
  | df, [] => .ok df
  | df, col :: rest =>
    match getCol df.cols reference_station with
    | none => .error .configError
    | some refSeries =>
      relLoop
        ⟨df.timestamps,
          setCol df.cols (col ++ "_rel")
            (subCols ((getCol df.cols col).getD []) refSeries)⟩
        rest

/-- The module top level (src/main.py lines 31-66): load the CSV (a
missing or unparsable file raises, modelled by `none` input), discover
the frequency columns, run the phase/RoCoF loop, then the normalization
loop. -/
def loadModule (piv : α) (source : Option (DataFrame α)) : Except PipeError (DataFrame α) :=
  match source with
  | none => .error .loadError
  | some df =>
    let frequency_columns := (df.cols.map Prod.fst).filter containsFrequency
    let df1 := deriveLoop piv df frequency_columns
    relLoop df1 (frequency_columns.map phaseNameOf)

/-- Re-executing the module on a file: line 31 rebinds `df` to the
freshly loaded data before anything reads it, so the previously held
frame `prev` is dead state. -/
def rerunModule (_prev : DataFrame α) (piv : α) (source : Option (DataFrame α)) :
    Except PipeError (DataFrame α) :=
  loadModule piv source

/-! ### The query interface (`update_graph`, src/main.py lines 126-176) -/

/-- The query failure: the `KeyError` raised by `df[col_name]` for an
absent column, the spec's `NotFoundError`. -/
inductive QueryError
  | notFoundError
deriving DecidableEq

/-- The column resolved for a selected station and a signal mode
(src/main.py lines 158-166). -/
def colNameFor (mode freq_col : String) : String :=
  if mode = "Frequency" then freq_col
  else if mode = "Phase" then phaseNameOf freq_col ++ "_rel"
  else rocofNameOf freq_col

/-- The trace-building loop of `update_graph`: one `(x, y)` pair per
selected station, `x` the timestamps and `y` the resolved column; a
missing column raises.  Rendering attributes (label, color, layout) carry
no data and are elided. -/
def collectTraces (df : DataFrame α) (mode : String) :
    List String → Except QueryError (List (List α × List (Option α)))
  | [] => .ok []
  | s :: rest =>
    match getCol df.cols (colNameFor mode s) with
    | none => .error .notFoundError
    | some ys => (collectTraces df mode rest).map (fun ts => (df.timestamps, ys) :: ts)

/-- `update_graph` (src/main.py lines 126-176): a read-only callback; the
pair returned makes the (unchanged) process-wide frame explicit. -/
def update_graph (df : DataFrame α) (selected : List String) (mode : String) :
    DataFrame α × Except QueryError (List (List α × List (Option α))) :=
  (df, collectTraces df mode selected)

/-! ### Basic lemmas about the series operations -/

@[simp] theorem length_gapFill (a b : α) (g : ℕ) : (gapFill a b g).length = g := by
  rw [gapFill, List.length_map, List.length_range]

theorem length_interpRun (a : α) (p : ℕ) (xs : List (Option α)) :
    (interpRun a p xs).length = p + xs.length := by
  induction xs generalizing a p with
  | nil => simp [interpRun]
  | cons x rest ih =>
    cases x with
    | none =>
      simp only [interpRun, ih, List.length_cons]
      omega
    | some b =>
      simp only [interpRun, List.length_append, length_gapFill, List.length_cons, ih]
      omega

@[simp] theorem length_interpolate (xs : List (Option α)) :
    (interpolate xs).length = xs.length := by
  induction xs with
  | nil => rfl
  | cons x rest ih =>
    cases x with
    | none => simp [interpolate, ih]
    | some a => simp [interpolate, length_interpRun]

@[simp] theorem length_bfill (xs : List (Option α)) : (bfill xs).length = xs.length := by
  induction xs with
  | nil => rfl
  | cons x rest ih =>
    cases x with
    | none => simp [bfill, ih]
    | some a => simp [bfill, ih]

@[simp] theorem length_ffillFrom (c : Option α) (xs : List (Option α)) :
    (ffillFrom c xs).length = xs.length := by
  induction xs generalizing c with
  | nil => rfl
  | cons x rest ih =>
    cases x with
    | none => simp [ffillFrom, ih]
    | some a => simp [ffillFrom, ih]

@[simp] theorem length_fillSeries (xs : List (Option α)) :
    (fillSeries xs).length = xs.length := by
  simp [fillSeries, ffill]

@[simp] theorem gapFill_zero (a b : α) : gapFill a b 0 = [] := by
  simp [gapFill]

theorem interpRun_map_some (xs : List α) (a : α) :
    interpRun a 0 (xs.map some) = xs := by
  induction xs generalizing a with
  | nil => rfl
  | cons b rest ih => simp [interpRun, ih]

theorem interpolate_map_some (xs : List α) :
    interpolate (xs.map some) = xs.map some := by
  cases xs with
  | nil => rfl
  | cons a rest => simp [interpolate, interpRun_map_some]

theorem bfill_map_some (xs : List α) : bfill (xs.map some) = xs.map some := by
  induction xs with
  | nil => rfl
  | cons a rest ih => simp [bfill, ih]

theorem ffillFrom_map_some (xs : List α) (c : Option α) :
    ffillFrom c (xs.map some) = xs.map some := by
  induction xs generalizing c with
  | nil => rfl
  | cons a rest ih => simp [ffillFrom, ih]

theorem fillSeries_map_some (xs : List α) : fillSeries (xs.map some) = xs.map some := by
  simp [fillSeries, ffill, interpolate_map_some, bfill_map_some, ffillFrom_map_some]

/-! ### Decomposition of the gap-filling step (for sequences with at
least one known value) -/

theorem interpolate_replicate_none (k : ℕ) (a : α) (rest : List (Option α)) :
    interpolate (List.replicate k none ++ some a :: rest) =
      List.replicate k none ++ some a :: (interpRun a 0 rest).map some := by
  induction k with
  | zero => simp [interpolate]
  | succ k ih => simp [List.replicate_succ, interpolate, ih]

theorem head?_replicate_some_append (k : ℕ) (a : α) (l : List (Option α)) :
    (List.replicate k (some a) ++ some a :: l).head? = some (some a) := by
  cases k with
  | zero => rfl
  | succ k => simp [List.replicate_succ]

theorem bfill_replicate_none (k : ℕ) (a : α) (w : List α) :
    bfill (List.replicate k none ++ some a :: w.map some) =
      List.replicate k (some a) ++ some a :: w.map some := by
  induction k with
  | zero => simp [bfill, bfill_map_some]
  | succ k ih =>
    simp only [List.replicate_succ, List.cons_append, bfill, List.append_eq, ih,
      head?_replicate_some_append]

theorem fillSeries_decomp (k : ℕ) (a : α) (rest : List (Option α)) :
    fillSeries (List.replicate k none ++ some a :: rest) =
      (List.replicate k a ++ a :: interpRun a 0 rest).map some := by
  rw [fillSeries, interpolate_replicate_none, bfill_replicate_none, ffill]
  have h : List.replicate k (some a) ++ some a :: (interpRun a 0 rest).map some =
      (List.replicate k a ++ a :: interpRun a 0 rest).map some := by
    simp [List.map_replicate]
  rw [h, ffillFrom_map_some]

theorem exists_first_known (xs : List (Option α)) (h : ∃ v, some v ∈ xs) :
    ∃ k a rest, xs = List.replicate k none ++ some a :: rest := by
  induction xs with
  | nil => simp at h
  | cons x rest ih =>
    cases x with
    | some a => exact ⟨0, a, rest, rfl⟩
    | none =>
      obtain ⟨v, hv⟩ := h
      have hv' : some v ∈ rest := by simpa using hv
      obtain ⟨k, a, r, hr⟩ := ih ⟨v, hv'⟩
      exact ⟨k + 1, a, r, by simp [List.replicate_succ, hr]⟩

/-! ### Pointwise preservation of known values by the gap-filling step -/

theorem interpRun_getElem (rest : List (Option α)) (a : α) (p j : ℕ) (v : α)
    (hj : rest[j]? = some (some v)) : (interpRun a p rest)[p + j]? = some v := by
  induction rest generalizing a p j with
  | nil => simp at hj
  | cons x r ih =>
    cases x with
    | none =>
      cases j with
      | zero => simp at hj
      | succ j' =>
        have := ih a (p + 1) j' (by simpa using hj)
        rw [interpRun]
        have harith : p + (j' + 1) = (p + 1) + j' := by omega
        rw [harith]
        exact this
    | some b =>
      rw [interpRun]
      cases j with
      | zero =>
        have hb : b = v := by simpa using hj
        rw [List.getElem?_append_right (by simp)]
        simp [hb]
      | succ j' =>
        have hr : r[j']? = some (some v) := by simpa using hj
        rw [List.getElem?_append_right (by simp)]
        have hidx : p + (j' + 1) - (gapFill a b p).length = j' + 1 := by
          simp
        rw [hidx, List.getElem?_cons_succ]
        simpa using ih b 0 j' hr

theorem interpolate_getElem (xs : List (Option α)) (i : ℕ) (v : α)
    (hi : xs[i]? = some (some v)) : (interpolate xs)[i]? = some (some v) := by
  induction xs generalizing i with
  | nil => simp at hi
  | cons x r ih =>
    cases x with
    | none =>
      cases i with
      | zero => simp at hi
      | succ i' =>
        rw [interpolate, List.getElem?_cons_succ]
        exact ih i' (by simpa using hi)
    | some a =>
      cases i with
      | zero => simpa [interpolate] using hi
      | succ i' =>
        rw [interpolate, List.getElem?_cons_succ, List.getElem?_map]
        have := interpRun_getElem r a 0 i' v (by simpa using hi)
        simp only [Nat.zero_add] at this
        simp [this]

theorem bfill_getElem (xs : List (Option α)) (i : ℕ) (v : α)
    (hi : xs[i]? = some (some v)) : (bfill xs)[i]? = some (some v) := by
  induction xs generalizing i with
  | nil => simp at hi
  | cons x r ih =>
    cases x with
    | none =>
      cases i with
      | zero => simp at hi
      | succ i' =>
        rw [bfill]
        simp only [List.getElem?_cons_succ]
        exact ih i' (by simpa using hi)
    | some a =>
      cases i with
      | zero => simpa [bfill] using hi
      | succ i' =>
        rw [bfill, List.getElem?_cons_succ]
        exact ih i' (by simpa using hi)

theorem ffillFrom_getElem (xs : List (Option α)) (c : Option α) (i : ℕ) (v : α)
    (hi : xs[i]? = some (some v)) : (ffillFrom c xs)[i]? = some (some v) := by
  induction xs generalizing c i with
  | nil => simp at hi
  | cons x r ih =>
    cases x with
    | none =>
      cases i with
      | zero => simp at hi
      | succ i' =>
        rw [ffillFrom, List.getElem?_cons_succ]
        exact ih c i' (by simpa using hi)
    | some a =>
      cases i with
      | zero => simpa [ffillFrom] using hi
      | succ i' =>
        rw [ffillFrom, List.getElem?_cons_succ]
        exact ih (some a) i' (by simpa using hi)

theorem fillSeries_getElem (xs : List (Option α)) (i : ℕ) (v : α)
    (hi : xs[i]? = some (some v)) : (fillSeries xs)[i]? = some (some v) := by
  rw [fillSeries, ffill]
  exact ffillFrom_getElem _ _ _ _ (bfill_getElem _ _ _ (interpolate_getElem _ _ _ hi))

/-- C3 counterexample: the gap-filling step `interpolate().bfill().ffill()`
does not always remove every missing value — on a series with no known
value at all (here the one-element all-missing series) every stage leaves
it untouched, so the output still contains a missing entry, contradicting
the claim that the output has zero missing values for every input. -/
theorem fillSeries_all_missing_cex :
    fillSeries [(none : Option ℝ)] = [none] ∧
      (none : Option ℝ) ∈ fillSeries [(none : Option ℝ)] := by
  constructor
  · rfl
  · rw [show fillSeries [(none : Option ℝ)] = [none] from rfl]
    simp

/-- C3 (amended): for every raw frequency series, gap filling preserves
the length and is exact at every index holding a known value; and
provided the series contains at least one known value, the output has no
missing entries. -/
theorem fillSeries_complete_preserving (xs : List (Option ℝ)) :
    (fillSeries xs).length = xs.length ∧
    (∀ (i : ℕ) (v : ℝ), xs[i]? = some (some v) → (fillSeries xs)[i]? = some (some v)) ∧
    ((∃ v, some v ∈ xs) → ∀ y ∈ fillSeries xs, y ≠ none) := by
  refine ⟨length_fillSeries xs, fun i v hi => fillSeries_getElem xs i v hi, ?_⟩
  intro h y hy
  obtain ⟨k, a, rest, hdecomp⟩ := exists_first_known xs h
  rw [hdecomp, fillSeries_decomp] at hy
  simp only [List.mem_map] at hy
  obtain ⟨w, _, hw⟩ := hy
  rw [← hw]
  simp

/-- C3 witness: a concrete gappy series with known values. -/
theorem fillSeries_complete_witness :
    ∀ y ∈ fillSeries [none, some (1 : ℝ), none, none, some 4, none], y ≠ none :=
  (fillSeries_complete_preserving [none, some 1, none, none, some 4, none]).2.2
    ⟨1, by simp⟩

/-! ### The reference normalization (`df[col] - df[reference_station]`) -/

/-- C5 counterexample: for a station whose frequency data is entirely
missing (so its phase series is all-missing as well, here produced by the
pipeline itself from a one-row all-missing column), subtracting the
series from itself yields a missing value, not zero — NaN minus NaN is
NaN — so the reference station's relative phase is not identically zero
at every index. -/
theorem rel_phase_all_missing_cex :
    subCols (compute_phase_angle Real.pi [0] [none])
        (compute_phase_angle Real.pi [(0 : ℝ)] [none]) = [none] ∧
      ([none] : List (Option ℝ)) ≠ [some 0] := by
  constructor
  · rfl
  · simp

/-- C5 (amended): for any two element-wise identical absolute phase
sequences, one being the reference, the reference-relative sequence is
zero at every index holding a present (non-missing) phase value. -/
theorem subCols_identical_zero (p q : List (Option ℝ)) (i : ℕ) (a : ℝ)
    (hpq : p = q) (hi : p[i]? = some (some a)) :
    (subCols p q)[i]? = some (some 0) := by
  subst hpq
  rw [subCols, List.getElem?_zipWith]
  simp [hi, optSub]

/-- C5 witness. -/
theorem subCols_identical_witness : (subCols [some (5 : ℝ)] [some 5])[0]? = some (some 0) :=
  subCols_identical_zero [some 5] [some 5] 0 5 rfl rfl

/-! ### Shape of the RoCoF series -/

theorem diffPairs_getElem (l : List (Option α)) (prev : Option α) (i : ℕ)
    (x y : Option α) (hx : (prev :: l)[i]? = some x) (hy : l[i]? = some y) :
    (diffPairs prev l)[i]? = some (optSub y x) := by
  induction l generalizing prev i with
  | nil => simp at hy
  | cons z l' ih =>
    cases i with
    | zero =>
      have hx0 : x = prev := by simpa using hx.symm
      have hy0 : y = z := by simpa using hy.symm
      subst hx0; subst hy0
      simp [diffPairs]
    | succ j =>
      rw [diffPairs, List.getElem?_cons_succ]
      exact ih z j (by simpa using hx) (by simpa using hy)

theorem seriesDiff_getElem_succ (xs : List (Option α)) (i : ℕ) (x y : Option α)
    (hx : xs[i]? = some x) (hy : xs[i + 1]? = some y) :
    (seriesDiff xs)[i + 1]? = some (optSub y x) := by
  cases xs with
  | nil => simp at hx
  | cons x0 xr =>
    rw [seriesDiff, List.getElem?_cons_succ]
    exact diffPairs_getElem xr x0 i x y hx (by simpa using hy)

/-- C4: the RoCoF series has the missing marker at index 0 whenever the
frame is nonempty, and at every later index `i+1` it is the difference of
the adjacent gap-filled frequency values divided by the elapsed seconds
between the adjacent timestamps (float division by a zero `dt` is
modelled by total real division). -/
theorem rocof_first_missing_and_formula :
    (∀ (ts : List ℝ) (raw : List (Option ℝ)), ts ≠ [] → raw ≠ [] →
        (rocofSeries ts raw)[0]? = some none) ∧
    (∀ (ts : List ℝ) (raw : List (Option ℝ)) (i : ℕ) (a b c d : ℝ),
        (fillSeries raw)[i]? = some (some a) →
        (fillSeries raw)[i + 1]? = some (some b) →
        ts[i]? = some c → ts[i + 1]? = some d →
        (rocofSeries ts raw)[i + 1]? = some (some ((b - a) / (d - c)))) := by
  constructor
  · intro ts raw hts hraw
    obtain ⟨t, ts', rfl⟩ := List.exists_cons_of_ne_nil hts
    have hfil : fillSeries raw ≠ [] := by
      have : (fillSeries raw).length = raw.length := length_fillSeries raw
      intro hnil
      rw [hnil] at this
      exact hraw (List.eq_nil_of_length_eq_zero this.symm)
    obtain ⟨f0, fr, hf⟩ := List.exists_cons_of_ne_nil hfil
    rw [rocofSeries, hf, List.getElem?_zipWith]
    simp [seriesDiff, divOpt]
  · intro ts raw i a b c d ha hb hc hd
    have hA : (seriesDiff (fillSeries raw))[i + 1]? = some (some (b - a)) := by
      have := seriesDiff_getElem_succ (fillSeries raw) i (some a) (some b) ha hb
      simpa [optSub] using this
    have hB : (seriesDiff (ts.map some))[i + 1]? = some (some (d - c)) := by
      have hc' : (ts.map some)[i]? = some (some c) := by
        rw [List.getElem?_map, hc]; rfl
      have hd' : (ts.map some)[i + 1]? = some (some d) := by
        rw [List.getElem?_map, hd]; rfl
      have := seriesDiff_getElem_succ (ts.map some) i (some c) (some d) hc' hd'
      simpa [optSub] using this
    rw [rocofSeries, List.getElem?_zipWith, hA, hB]
    rfl

/-- C4 witness. -/
theorem rocof_witness :
    (rocofSeries [(0 : ℝ), 1] [some 50, some 51])[0]? = some none ∧
    (rocofSeries [(0 : ℝ), 1] [some 50, some 51])[1]? =
      some (some ((51 - 50) / (1 - 0))) := by
  constructor
  · exact rocof_first_missing_and_formula.1 [0, 1] [some 50, some 51]
      (by simp) (by simp)
  · exact rocof_first_missing_and_formula.2 [0, 1] [some 50, some 51] 0 50 51 0 1
      rfl rfl rfl rfl

/-! ### Shape of the phase-angle integration -/

theorem length_np_diff (xs : List α) : (np_diff xs).length = xs.length - 1 := by
  induction xs with
  | nil => rfl
  | cons a r ih =>
    cases r with
    | nil => rfl
    | cons b r' =>
      rw [np_diff]
      simp only [List.length_cons] at ih ⊢
      omega

theorem np_diff_map_sub (xs : List α) (c : α) :
    np_diff (xs.map (fun t => t - c)) = np_diff xs := by
  induction xs with
  | nil => rfl
  | cons a r ih =>
    cases r with
    | nil => rfl
    | cons b r' =>
      simp only [List.map_cons] at ih ⊢
      rw [np_diff, np_diff, ih, sub_sub_sub_cancel_right]

theorem np_diff_map_range (n : ℕ) (f : ℕ → α) :
    np_diff ((List.range (n + 1)).map f) =
      (List.range n).map (fun k => f (k + 1) - f k) := by
  induction n generalizing f with
  | zero => rfl
  | succ m ih =>
    have hL : (List.range (m + 1 + 1)).map f =
        f 0 :: (List.range (m + 1)).map (f ∘ Nat.succ) := by
      rw [List.range_succ_eq_map, List.map_cons, List.map_map]
    have hcons : (List.range (m + 1)).map (f ∘ Nat.succ) =
        (f ∘ Nat.succ) 0 :: (List.range m).map ((f ∘ Nat.succ) ∘ Nat.succ) := by
      rw [List.range_succ_eq_map, List.map_cons, List.map_map]
    have hR : (List.range (m + 1)).map (fun k => f (k + 1) - f k) =
        (fun k => f (k + 1) - f k) 0 ::
          (List.range m).map ((fun k => f (k + 1) - f k) ∘ Nat.succ) := by
      rw [List.range_succ_eq_map, List.map_cons, List.map_map]
    rw [hL, hcons, np_diff, ← hcons, ih (f ∘ Nat.succ), hR]
    rfl

theorem zipWith_replicate_both {β γ δ : Type} (g : β → γ → δ) (n : ℕ) (a : β) (b : γ) :
    List.zipWith g (List.replicate n a) (List.replicate n b) =
      List.replicate n (g a b) := by
  induction n with
  | zero => rfl
  | succ m ih => simp [List.replicate_succ, ih]

theorem cumsumO_replicate_getElem (m : ℕ) (x c : α) (j : ℕ) (hj : j < m) :
    (cumsumO (some x) (List.replicate m (some c)))[j]? =
      some (some (x + ((j : α) + 1) * c)) := by
  induction m generalizing x j with
  | zero => omega
  | succ m ih =>
    rw [List.replicate_succ, cumsumO]
    cases j with
    | zero =>
      simp only [List.getElem?_cons_zero, optAdd]
      norm_num
    | succ j' =>
      simp only [List.getElem?_cons_succ]
      show (cumsumO (some (x + c)) (List.replicate m (some c)))[j']? = _
      rw [ih (x + c) j' (by omega)]
      simp only [Option.some.injEq]
      push_cast
      ring

theorem zipWith_phase_zero (piv : α) (n : ℕ) (l : List α) :
    List.zipWith (fun df d => Option.map (fun x => 2 * piv * x * d) df)
      (List.replicate n (some (0 : α))) l = List.replicate (min n l.length) (some 0) := by
  induction l generalizing n with
  | nil => simp
  | cons d l' ih =>
    cases n with
    | zero => simp
    | succ k =>
      simp only [List.replicate_succ, List.zipWith_cons_cons, ih, Option.map_some',
        mul_zero, zero_mul, List.length_cons, Nat.succ_min_succ]

theorem cumsumO_zeros (m : ℕ) :
    cumsumO (some (0 : α)) (List.replicate m (some 0)) = List.replicate m (some 0) := by
  induction m with
  | zero => rfl
  | succ k ih => simp only [List.replicate_succ, cumsumO, optAdd, add_zero, ih]

/-- C1: on the spec's worked example — rows `(t0, 50.00)`, `(t0+1s, 50.10)`,
`(t0+2s, 49.90)` with nominal 50.0 — the phase pipeline produces
`[0, 2π·0.10 (≈ 0.6283), 0]` and the RoCoF pipeline produces
`[missing, 0.10, -0.20]`. -/
theorem phase_rocof_example (t0 : ℝ) :
    compute_phase_angle Real.pi [t0, t0 + 1, t0 + 2] [some 50, some 50.1, some 49.9] =
      [some 0, some (2 * Real.pi * 0.1), some 0] ∧
    rocofSeries [t0, t0 + 1, t0 + 2] [some 50, some 50.1, some 49.9] =
      [none, some 0.1, some (-0.2)] := by
  have hfill : fillSeries [some (50 : ℝ), some 50.1, some 49.9] =
      [some 50, some 50.1, some 49.9] := by
    have := fillSeries_map_some [(50 : ℝ), 50.1, 49.9]
    simpa using this
  have h1 : t0 + 1 - t0 = (1 : ℝ) := by ring
  have h2 : t0 + 2 - (t0 + 1) = (1 : ℝ) := by ring
  constructor
  · simp only [compute_phase_angle, hfill, List.map_cons, List.map_nil, np_diff,
      List.zipWith_cons_cons, List.zipWith_nil_right, cumsumO, optAdd,
      Option.map_some', List.cons.injEq, Option.some.injEq, and_true]
    norm_num
  · simp only [rocofSeries, hfill, List.map_cons, List.map_nil, seriesDiff, diffPairs,
      optSub, List.zipWith_cons_cons, List.zipWith_nil_right, divOpt, h1, h2,
      List.cons.injEq, Option.some.injEq, and_true]
    norm_num

/-- C2: for a frequency held constant at `nominal + δ` on a uniformly
spaced timestamp grid `t0 + k·Δt`, the phase at sample `i` is
`2π·δ·Δt·i` — the left-rectangle cumulative-sum rule, including the
zero-`dt` first sample. -/
theorem phase_uniform_spacing (n : ℕ) (t0 dT del nom : ℝ) (i : ℕ) (hi : i < n) :
    (compute_phase_angle Real.pi
        ((List.range n).map (fun k : ℕ => t0 + (k : ℝ) * dT))
        ((List.replicate n (nom + del)).map some) nom)[i]? =
      some (some (2 * Real.pi * del * dT * (i : ℝ))) := by
  cases n with
  | zero => omega
  | succ m =>
    set f : ℕ → ℝ := fun k : ℕ => t0 + (k : ℝ) * dT with hf
    have hL : (List.range (m + 1)).map f = f 0 :: (List.range m).map (f ∘ Nat.succ) := by
      rw [List.range_succ_eq_map, List.map_cons, List.map_map]
    rw [hL]
    simp only [compute_phase_angle]
    have hfreq : List.map (Option.map fun v => v - nom)
        (fillSeries (List.map some (List.replicate (m + 1) (nom + del)))) =
        List.replicate (m + 1) (some (nom + del - nom)) := by
      rw [fillSeries_map_some, List.map_map, List.map_replicate]
      rfl
    have hdt : np_diff ((f 0 - f 0) ::
        List.map (fun t => t - f 0) (f 0 :: List.map (f ∘ Nat.succ) (List.range m))) =
        ((f 0 - f 0) - (f 0 - f 0)) :: List.replicate m dT := by
      rw [List.map_cons, np_diff]
      congr 1
      have hA : (f 0 - f 0) :: List.map (fun t => t - f 0) (List.map (f ∘ Nat.succ) (List.range m))
          = List.map (fun t => t - f 0) ((List.range (m + 1)).map f) := by
        rw [hL, List.map_cons]
      rw [hA, np_diff_map_sub, np_diff_map_range]
      have hB : ∀ k ∈ List.range m, f (k + 1) - f k = dT := by
        intro k _
        simp only [hf]
        push_cast
        ring
      rw [List.map_congr_left hB, List.map_const', List.length_range]
    rw [hfreq, hdt, List.replicate_succ, List.zipWith_cons_cons, zipWith_replicate_both]
    simp only [Option.map_some', cumsumO, optAdd]
    cases i with
    | zero =>
      simp only [List.getElem?_cons_zero, Option.some.injEq]
      push_cast
      ring
    | succ j =>
      simp only [List.getElem?_cons_succ]
      show (cumsumO (some (0 + 2 * Real.pi * (nom + del - nom) * (f 0 - f 0 - (f 0 - f 0))))
        (List.replicate m (some (2 * Real.pi * (nom + del - nom) * dT))))[j]? = _
      rw [cumsumO_replicate_getElem m _ _ j (by omega)]
      simp only [Option.some.injEq]
      push_cast
      ring

/-- C2 witness: three samples at spacing 2, deviation 0.5, index 2. -/
theorem phase_uniform_witness :
    (compute_phase_angle Real.pi ((List.range 3).map (fun k : ℕ => 7 + (k : ℝ) * 2))
        ((List.replicate 3 (50 + 0.5)).map some) 50)[2]? =
      some (some (2 * Real.pi * 0.5 * 2 * ((2 : ℕ) : ℝ))) :=
  phase_uniform_spacing 3 7 2 0.5 50 2 (by norm_num)

/-- C8: for a frequency column constant and exactly equal to the nominal
frequency, over any timestamp grid (uniform or not), the phase-angle
output is identically zero at every index. -/
theorem phase_const_nominal (ts : List ℝ) (nom : ℝ) :
    compute_phase_angle Real.pi ts (List.replicate ts.length (some nom)) nom =
      List.replicate ts.length (some 0) := by
  cases ts with
  | nil => rfl
  | cons t0 tail =>
    simp only [compute_phase_angle]
    have hfreq : List.map (Option.map fun v => v - nom)
        (fillSeries (List.replicate (t0 :: tail).length (some nom))) =
        List.replicate (t0 :: tail).length (some 0) := by
      rw [← List.map_replicate, fillSeries_map_some, List.map_map, List.map_replicate]
      simp
    rw [hfreq, zipWith_phase_zero]
    have hlen : min (t0 :: tail).length
        (np_diff ((t0 - t0) :: List.map (fun t => t - t0) (t0 :: tail))).length =
        (t0 :: tail).length := by
      rw [length_np_diff]
      simp
    rw [hlen, cumsumO_zeros]

/-! ### Load-time error behavior -/

/-- C6 counterexample: a parsable file with zero frequency-matching
columns does not make the load step fail — discovery yields an empty
column list, every loop body is skipped, and the module comes up with the
table unchanged, contradicting the claim that zero matching columns
raises a LoadError. -/
theorem load_zero_freq_cols_cex :
    loadModule Real.pi (some (⟨[0], [("Temperature", [some 1])]⟩ : DataFrame ℝ)) =
      .ok ⟨[0], [("Temperature", [some 1])]⟩ := by
  rfl

/-- C6 (amended): the load step fails with LoadError exactly for a
missing or unparsable file; a file with zero frequency-matching columns
loads successfully and is returned unchanged (no derived columns, no
error). -/
theorem load_error_taxonomy :
    (loadModule Real.pi (none : Option (DataFrame ℝ)) = .error .loadError) ∧
    (∀ df : DataFrame ℝ, (df.cols.map Prod.fst).filter containsFrequency = [] →
      loadModule Real.pi (some df) = .ok df) := by
  constructor
  · rfl
  · intro df h
    simp only [loadModule, h, deriveLoop, List.map_nil, relLoop]

/-- C6 witness. -/
theorem load_error_taxonomy_witness :
    loadModule Real.pi (some (⟨[], [("Humidity", [none])]⟩ : DataFrame ℝ)) =
      .ok ⟨[], [("Humidity", [none])]⟩ :=
  load_error_taxonomy.2 ⟨[], [("Humidity", [none])]⟩ (by rfl)

/-! ### Query behavior on unknown identifiers -/

/-- C7 counterexample: a selected identifier that matches no discovered
station (here the derived column name `A:Phase`, which is not a frequency
column) is served without any error in Frequency mode, because the code
only checks that the resolved column name exists in the frame — the
query does not fail with NotFoundError for every unknown station id. -/
theorem query_unknown_id_served_cex :
    update_graph (⟨[0], [("A:Frequency", [some 50]), ("A:Phase", [some 0])]⟩ : DataFrame ℝ)
        ["A:Phase"] ("Frequency") =
      (⟨[0], [("A:Frequency", [some 50]), ("A:Phase", [some 0])]⟩,
        .ok [([0], [some 0])]) ∧
    containsFrequency ("A:Phase") = false := by
  constructor
  · rfl
  · rfl

theorem collectTraces_error (df : DataFrame α) (mode : String) (l : List String)
    (s : String) (hs : s ∈ l) (hmiss : getCol df.cols (colNameFor mode s) = none) :
    collectTraces df mode l = .error .notFoundError := by
  induction l with
  | nil => simp at hs
  | cons x r ih =>
    rw [collectTraces]
    rcases List.mem_cons.mp hs with h | h
    · subst h
      rw [hmiss]
    · cases hx : getCol df.cols (colNameFor mode x) with
      | none => rfl
      | some ys => rw [ih h]; rfl

/-- C7 (amended): a query whose selected set contains an identifier whose
mode-resolved column name is absent from the frame fails with
NotFoundError — it is not silently skipped — and the process-wide frame
is unchanged by the failed query.  (An unknown identifier whose resolved
name happens to be an existing column is served instead, per the
counterexample.) -/
theorem query_missing_column_rejected (df : DataFrame ℝ) (selected : List String)
    (mode s : String) (hs : s ∈ selected)
    (hmiss : getCol df.cols (colNameFor mode s) = none) :
    (update_graph df selected mode).1 = df ∧
    (update_graph df selected mode).2 = .error .notFoundError :=
  ⟨rfl, collectTraces_error df mode selected s hs hmiss⟩

/-- C7 witness. -/
theorem query_missing_column_witness :
    (update_graph (⟨[], []⟩ : DataFrame ℝ) ["X:Frequency"] ("Frequency")).1 = ⟨[], []⟩ ∧
    (update_graph (⟨[], []⟩ : DataFrame ℝ) ["X:Frequency"] ("Frequency")).2 =
      .error .notFoundError :=
  query_missing_column_rejected ⟨[], []⟩ ["X:Frequency"] ("Frequency") ("X:Frequency")
    (by simp) rfl

/-! ### Purity of the module-level pipeline -/

/-- C9: re-running the module pipeline on the same source yields the very
same derived frame — the first statement of the module rebinds the frame
to the freshly loaded file before anything reads it, so no state carries
over between loads. -/
theorem pipeline_rerun_identical (prev : DataFrame ℝ) (source : Option (DataFrame ℝ))
    (t : DataFrame ℝ) (h : rerunModule prev Real.pi source = .ok t) :
    rerunModule t Real.pi source = .ok t := h

/-- C9 witness. -/
theorem pipeline_rerun_witness :
    rerunModule (⟨[], []⟩ : DataFrame ℝ) Real.pi (some ⟨[], []⟩) = .ok ⟨[], []⟩ :=
  pipeline_rerun_identical ⟨[], []⟩ (some ⟨[], []⟩) ⟨[], []⟩ rfl

/-! ### Frame effect of the derivation pipeline on Frequency columns -/

/-- A frame whose headers make the string surgery collide: the RoCoF name
derived from `Frequencyrequency` recreates the pattern and equals the
existing frequency column `RoCoFrequency`. -/
def csvClash : DataFrame ℝ :=
  ⟨[0, 1],
    [("DE_Ostrhauderfehn:Frequency", [some 50, some 50]),
     ("Frequencyrequency", [some 50, some 51]),
     ("RoCoFrequency", [some 50, some 50])]⟩

/-- C10 counterexample: `"Frequencyrequency".replace('Frequency','RoCoF')`
is `"RoCoFrequency"`, which is itself a frequency column of `csvClash`;
the pipeline writes that station's RoCoF series over it, so after the
load this Frequency column starts with the missing marker instead of its
raw value `50` — the pipeline does write into a Frequency column. -/
theorem frequency_column_overwritten_cex :
    containsFrequency ("RoCoFrequency") = true ∧
    (getCol csvClash.cols ("RoCoFrequency")).map (fun l => l.head?) =
      some (some (some (50 : ℝ))) ∧
    (loadModule Real.pi (some csvClash)).map
        (fun t => (getCol t.cols ("RoCoFrequency")).map (fun l => l.head?)) =
      .ok (some (some none)) ∧
    (some (some (none : Option ℝ)) : Option (Option (Option ℝ))) ≠ some (some (some 50)) := by
  refine ⟨rfl, rfl, ?_, by simp⟩
  rfl

theorem getCol_setCol_ne (cols : List (String × List (Option α))) (k c : String)
    (v : List (Option α)) (hne : k ≠ c) :
    getCol (setCol cols k v) c = getCol cols c := by
  induction cols with
  | nil => simp [setCol, getCol, hne]
  | cons kv rest ih =>
    obtain ⟨k', v'⟩ := kv
    by_cases hk : k' = k
    · subst hk
      simp [setCol, getCol, hne]
    · simp only [setCol, if_neg hk, getCol]
      by_cases hc : k' = c
      · simp [hc]
      · simp [hc, ih]

theorem deriveLoop_getCol (piv : α) (df : DataFrame α) (l : List String) (c : String)
    (h : ∀ col ∈ l, phaseNameOf col ≠ c ∧ rocofNameOf col ≠ c) :
    getCol (deriveLoop piv df l).cols c = getCol df.cols c := by
  induction l generalizing df with
  | nil => rfl
  | cons col r ih =>
    rw [deriveLoop]
    have hcol := h col (by simp)
    rw [ih _ (fun x hx => h x (by simp [hx]))]
    show getCol (setCol (setCol df.cols _ _) _ _) c = _
    rw [getCol_setCol_ne _ _ _ _ hcol.2, getCol_setCol_ne _ _ _ _ hcol.1]

theorem relLoop_getCol (df : DataFrame α) (l : List String) (t : DataFrame α) (c : String)
    (hok : relLoop df l = .ok t) (h : ∀ col ∈ l, col ++ "_rel" ≠ c) :
    getCol t.cols c = getCol df.cols c := by
  induction l generalizing df with
  | nil =>
    simp only [relLoop] at hok
    injection hok with hok
    subst hok
    rfl
  | cons col r ih =>
    rw [relLoop] at hok
    cases href : getCol df.cols reference_station with
    | none =>
      rw [href] at hok
      cases hok
    | some refS =>
      rw [href] at hok
      have := ih _ hok (fun x hx => h x (by simp [hx]))
      rw [this]
      show getCol (setCol df.cols _ _) c = _
      rw [getCol_setCol_ne _ _ _ _ (h col (by simp))]

/-- C10 (amended): provided none of the derived column names
(Phase, RoCoF, relative-phase) of any frequency column coincides with a
frequency column name — the counterexample shows the string substitution
can recreate such a collision — the pipeline leaves every Frequency
column of the frame element-wise identical to the raw loaded data,
missing entries included; Phase and RoCoF are computed from internally
gap-filled copies only. -/
theorem frequency_columns_preserved (df t : DataFrame ℝ)
    (hsep : ∀ c ∈ (df.cols.map Prod.fst).filter containsFrequency,
        ∀ col ∈ (df.cols.map Prod.fst).filter containsFrequency,
          phaseNameOf col ≠ c ∧ rocofNameOf col ≠ c ∧ phaseNameOf col ++ "_rel" ≠ c)
    (hload : loadModule Real.pi (some df) = .ok t) :
    ∀ c ∈ (df.cols.map Prod.fst).filter containsFrequency,
      getCol t.cols c = getCol df.cols c := by
  intro c hc
  simp only [loadModule] at hload
  have hrel : getCol t.cols c =
      getCol (deriveLoop Real.pi df
        ((df.cols.map Prod.fst).filter containsFrequency)).cols c := by
    apply relLoop_getCol _ _ _ _ hload
    intro x hx
    obtain ⟨col0, hcol0, rfl⟩ := List.mem_map.mp hx
    exact (hsep c hc col0 hcol0).2.2
  rw [hrel]
  apply deriveLoop_getCol
  intro col hcol
  exact ⟨(hsep c hc col hcol).1, (hsep c hc col hcol).2.1⟩

/-- A frame holding only the reference station's (empty) frequency
column, and the frame the pipeline derives from it. -/
def dfRefOnly : DataFrame ℝ := ⟨[], [("DE_Ostrhauderfehn:Frequency", [])]⟩

/-- The derived frame for `dfRefOnly`. -/
def dfRefOnlyDerived : DataFrame ℝ :=
  ⟨[], [("DE_Ostrhauderfehn:Frequency", []), ("DE_Ostrhauderfehn:Phase", []),
        ("DE_Ostrhauderfehn:RoCoF", []), ("DE_Ostrhauderfehn:Phase_rel", [])]⟩

/-- C10 witness. -/
theorem frequency_columns_preserved_witness :
    getCol dfRefOnlyDerived.cols ("DE_Ostrhauderfehn:Frequency") =
      getCol dfRefOnly.cols ("DE_Ostrhauderfehn:Frequency") :=
  frequency_columns_preserved dfRefOnly dfRefOnlyDerived (by decide) rfl
    ("DE_Ostrhauderfehn:Frequency") (by decide)
